import Mathlib

/-!
Verification of the BAO-filter subsystem of `cosmoprimo` (`cosmoprimo/bao_filter.py`).

The filters sample a power-spectrum (or correlation-function) interpolator on a
geometric grid, compute a smooth ("no-wiggle") counterpart `pknow`/`xinow`, and
expose the wiggle ratio `pk / pknow`.  We embed the data model and the portions
of each strategy that the verified properties depend on:

* machine reals are modelled by `ℚ` (the claims under verification are exact
  identities such as pass-through of raw values, so no rounding model is needed);
* transcendental kernels that only feed the parts of the pipeline not at issue
  (the Savitzky-Golay filter itself, the DST/spline machinery of Wallish2018,
  the Gaussian tail of the tophat taper, the peak-average interpolant of
  Brieden2022) are abstracted as explicitly quantified function parameters;
  everything the claims speak about (masks, window bounds, slice assignments,
  stitching, least-squares fill, registry lookup) is translated directly from
  the source;
* the 2D `[k, z]` arrays are handled per z-slice (all the operations at issue
  act identically and independently on each z-column, `axis=0`); the
  1D-versus-2D array bookkeeping of the base class is modelled separately by
  `NDArr` / `FilterState`;
* `BasePowerSpectrumBAOFilter` and `BaseCorrelationFunctionBAOFilter` are
  line-for-line identical apart from the names `k/pk/pknow` versus
  `s/xi/xinow`; the single model `FilterState` (with the power-spectrum field
  names) covers both.
-/

/-- Cosmology, reduced to the narrow contract the filters use: a scalar
`rs_drag` (the value of `cosmo.get_thermodynamics().rs_drag`). -/
structure Cosmology where
  rs_drag : ℚ
deriving DecidableEq

/-- The fixed fiducial sound horizon `100.91463132327911` hard-coded in
`rs_drag_ratio` (used when no fiducial cosmology was supplied). -/
def fidRsDrag : ℚ := 100.91463132327911

/-- A numpy array that is either 1D (shape `(n,)`) or 2D (shape `(n, nz)`,
rows indexed by the k/s grid, columns by redshift). -/
inductive NDArr where
  | one (v : List ℚ)
  | two (v : List (List ℚ))
deriving DecidableEq

/-- Layout of an `NDArr`: the length of a 1D array, or the list of row lengths
of a 2D array. -/
def NDArr.profile : NDArr → ℕ ⊕ List ℕ
  | .one v => .inl v.length
  | .two v => .inr (v.map List.length)

/-- Entry access: `a.entry i j` reads index `i` of a 1D array (ignoring `j`) or
entry `[i, j]` of a 2D array, with default `0` out of bounds. -/
def NDArr.entry : NDArr → ℕ → ℕ → ℚ
  | .one v, i, _ => v.getD i 0
  | .two v, i, j => (v.getD i []).getD j 0

/-- The numpy indexing `a[..., 0]` applied to a 2D array: drop the last axis,
keeping the first entry of each row.  (On a 1D array this indexing does not
occur in the source: `set_pk` always stores a 2D array; we map it to itself.) -/
def NDArr.axis0 : NDArr → NDArr
  | .one v => .one v
  | .two v => .one (v.map fun r => r.headD 0)

/-- An input interpolator: 1D (`pk_interpolator(k)`) or 2D
(`pk_interpolator(k, z, ignore_growth=True)`, returning the row of values over
the redshift axis for each wavenumber). -/
inductive Interp where
  | one (f : ℚ → ℚ)
  | two (f : ℚ → List ℚ)

/-- State of a `BasePowerSpectrumBAOFilter` (identically, of a
`BaseCorrelationFunctionBAOFilter`, reading `s/xi/xinow` for `k/pk/pknow`):
the sampling grid, the raw sampled array, the smooth counterpart, the 2D flag,
and the `_cosmo` / `_cosmo_fid` references. -/
structure FilterState where
  k : List ℚ
  pk : NDArr
  pknow : NDArr
  is2d : Bool
  cosmoCur : Option Cosmology
  cosmoFid : Option Cosmology

/-- A filter strategy's `_compute`, as a function from the grid and the raw
sampled array to the smooth array. -/
abbrev Strategy := List ℚ → NDArr → NDArr

/-- `set_pk` (`set_xi`): store the cosmology argument in `_cosmo`, set `is2d`,
and sample the interpolator on the grid — a 1D interpolator is sampled and
promoted to a column via `[:, None]`, a 2D one yields the `(n, nz)` array. -/
def set_pk (st : FilterState) (interp : Interp) (cosmo : Option Cosmology) : FilterState :=
  match interp with
  | .one f => { st with cosmoCur := cosmo, is2d := false, pk := .two (st.k.map fun x => [f x]) }
  | .two f => { st with cosmoCur := cosmo, is2d := true, pk := .two (st.k.map f) }

/-- `__call__`: re-sample via `set_pk`, recompute `pknow`, and for a 1D input
flatten both `pk` and `pknow` with `[..., 0]`. -/
def callFilter (strategy : Strategy) (st : FilterState) (interp : Interp)
    (cosmo : Option Cosmology) : FilterState :=
  let st1 := set_pk st interp cosmo
  let st2 := { st1 with pknow := strategy st1.k st1.pk }
  if st2.is2d then st2
  else { st2 with pk := st2.pk.axis0, pknow := st2.pknow.axis0 }

/-- `__init__`: store `_cosmo_fid`, set the grid (`set_k`; the grid values are
taken as a parameter here, their generation is modelled by `npGeomspace`),
run `set_pk` and `_compute`.  No flattening happens at construction. -/
def initFilter (strategy : Strategy) (k : List ℚ) (interp : Interp)
    (cosmo cosmoFid : Option Cosmology) : FilterState :=
  let st0 : FilterState :=
    { k := k, pk := .two [], pknow := .two [], is2d := false,
      cosmoCur := none, cosmoFid := cosmoFid }
  let st1 := set_pk st0 interp cosmo
  { st1 with pknow := strategy st1.k st1.pk }

/-- Elementwise division of two same-shaped arrays (`pk / pknow`).  The engine
always divides same-shaped arrays; mismatched constructors (numpy would
broadcast) do not occur and are mapped to the first argument. -/
def ndDiv : NDArr → NDArr → NDArr
  | .one a, .one b => .one (List.zipWith (· / ·) a b)
  | .two a, .two b => .two (List.zipWith (fun r s => List.zipWith (· / ·) r s) a b)
  | a, _ => a

/-- The `wiggles` property: `self.pk / self.pknow` (a pure read). -/
def wiggles (st : FilterState) : NDArr := ndDiv st.pk st.pknow

/-- `rs_drag_ratio` of both base classes: `1` if `_cosmo is None`; otherwise
the current `rs_drag` divided by the fiducial one, where a missing
`_cosmo_fid` is replaced by the constant `fidRsDrag`. -/
def rs_drag_ratio (st : FilterState) : ℚ :=
  match st.cosmoCur with
  | none => 1
  | some c =>
    let rs_drag_fid : ℚ :=
      match st.cosmoFid with
      | none => fidRsDrag
      | some cf => cf.rs_drag
    c.rs_drag / rs_drag_fid

/-- A geometric grid, kept symbolically as its endpoints and size (the actual
point values `start * (stop/start) ^ (i/(num-1))` are irrational and play no
role in the verified claims). -/
structure GeomGrid where
  start : ℚ
  stop : ℚ
  num : ℕ
deriving DecidableEq

/-- `np.geomspace`: raises `ValueError` exactly when an endpoint is zero or the
endpoints have opposite signs; any other pair of endpoints — including
`start ≥ stop`, which yields a non-increasing sequence — is accepted. -/
def npGeomspace (start stop : ℚ) (num : ℕ) : Except String GeomGrid :=
  if start = 0 ∨ stop = 0 ∨ ¬((0 < start) ↔ (0 < stop)) then
    .error "Geometric sequence cannot include zero"
  else
    .ok ⟨start, stop, num⟩

/-- `BasePowerSpectrumBAOFilter.set_k` (and `set_s`): sample `nk` points
geometrically between the interpolator's extrapolation bounds.  The only way
it can fail is `np.geomspace` raising. -/
def set_k (extrap_kmin extrap_kmax : ℚ) (nk : ℕ) : Except String GeomGrid :=
  npGeomspace extrap_kmin extrap_kmax nk

/-- Python's `str.lower()` on the (ASCII) engine-name strings. -/
def lower (s : String) : String := ⟨s.data.map Char.toLower⟩

/-- The classes registered in `RegisteredPowerSpectrumBAOFilter._registry`
(every `BasePowerSpectrumBAOFilter` subclass, the base class included). -/
inductive PkEngineClass where
  | base
  | hinton2017
  | savgol
  | ehpoly
  | wallish2018
  | brieden2022
  | peakaverage
deriving DecidableEq

/-- The classes registered in `RegisteredCorrelationFunctionBAOFilter._registry`. -/
inductive XiEngineClass where
  | base
  | kirkby2013
deriving DecidableEq

/-- `RegisteredPowerSpectrumBAOFilter._registry`: each class is keyed by its
(lowercase) `name` attribute. -/
def pkRegistry : List (String × PkEngineClass) :=
  [("base", .base), ("hinton2017", .hinton2017), ("savgol", .savgol),
   ("ehpoly", .ehpoly), ("wallish2018", .wallish2018),
   ("brieden2022", .brieden2022), ("peakaverage", .peakaverage)]

/-- `RegisteredCorrelationFunctionBAOFilter._registry`. -/
def xiRegistry : List (String × XiEngineClass) :=
  [("base", .base), ("kirkby2013", .kirkby2013)]

/-- The factory `PowerSpectrumBAOFilter(pk_interpolator, engine, **kwargs)`:
lower-case the engine name, look it up in the registry, and on failure raise
`ValueError` naming the unresolved (lowercased) string.  Instantiation of the
selected class is modelled by returning it. -/
def PowerSpectrumBAOFilter (engine : String) : Except String PkEngineClass :=
  let e := lower engine
  match List.lookup e pkRegistry with
  | some cls => .ok cls
  | none => .error ("Power spectrum BAO filter " ++ e ++ " is unknown")

/-- The factory `CorrelationFunctionBAOFilter(xi_interpolator, engine, **kwargs)`. -/
def CorrelationFunctionBAOFilter (engine : String) : Except String XiEngineClass :=
  let e := lower engine
  match List.lookup e xiRegistry with
  | some cls => .ok cls
  | none => .error ("Correlation function BAO filter " ++ e ++ " is unknown")

/-- Basis function `s ^ (1 - i)`, `i = 0..4`, of the Kirkby2013 polynomial
(`model(s)` in the source). -/
def polyBasis (i : Fin 5) (s : ℚ) : ℚ := s ^ ((1 : ℤ) - (i : ℤ))

/-- `params.dot(model(s))`: the degree-4 polynomial in the basis `s ^ (1 - i)`
with coefficient vector `params`. -/
def polyEval (params : Fin 5 → ℚ) (s : ℚ) : ℚ := ∑ i, params i * polyBasis i s

/-- Sum of squared residuals of the polynomial fit over a list of
`(s, xi)` points. -/
def sqResiduals (pts : List (ℚ × ℚ)) (params : Fin 5 → ℚ) : ℚ :=
  (pts.map fun q => (q.2 - polyEval params q.1) ^ 2).sum

/-- Modelled from the spec: `LeastSquareSolver` (`cosmoprimo/utils.py`, not
under `src/`) invoked with `precision=1.` and no constraint, i.e. unweighted,
unconstrained least squares — the coefficients minimise the sum of squared
residuals over the fitted samples. -/
def IsLeastSquaresFit (pts : List (ℚ × ℚ)) (params : Fin 5 → ℚ) : Prop :=
  ∀ q : Fin 5 → ℚ, sqResiduals pts params ≤ sqResiduals pts q

/-- The fitting region of `Kirkby2013CorrelationFunctionBAOFilter._compute`:
the sampled points whose separation lies in either rescaled window
(`srange_left` or `srange_right`, each multiplied by the sound-horizon
ratio). -/
def kirkbyFitPoints (srange_left srange_right : ℚ × ℚ) (rescale : ℚ)
    (s xi : List ℚ) : List (ℚ × ℚ) :=
  (s.zip xi).filter fun q =>
    decide ((srange_left.1 * rescale ≤ q.1 ∧ q.1 ≤ srange_left.2 * rescale) ∨
            (srange_right.1 * rescale ≤ q.1 ∧ q.1 ≤ srange_right.2 * rescale))

/-- `Kirkby2013CorrelationFunctionBAOFilter._compute`: fit the degree-4
polynomial to `xi` over the union of the two (rescaled) windows with the
least-squares solver, then replace `xi` by the polynomial exactly on the open
gap `srange_left[1] < s < srange_right[0]` (rescaled), keeping raw values
everywhere else.  The external solver is passed in as `solver`. -/
def kirkbyCompute (solver : List (ℚ × ℚ) → (Fin 5 → ℚ))
    (srange_left srange_right : ℚ × ℚ) (rescale : ℚ) (s xi : List ℚ) : List ℚ :=
  let params := solver (kirkbyFitPoints srange_left srange_right rescale s xi)
  (List.range s.length).map fun i =>
    let si := s.getD i 0
    if srange_left.2 * rescale < si ∧ si < srange_right.1 * rescale then
      polyEval params si
    else xi.getD i 0

/-- The knot set of the stitching spline of
`Wallish2018PowerSpectrumBAOFilter._compute`: main-grid raw points with
`k < 5e-4`, then the fine-grid smooth points restricted to
`1e-2 < k < 1.5`, then main-grid raw points with `k > 2`. -/
def wallishKnots (fine kpk : List (ℚ × ℚ)) : List (ℚ × ℚ) :=
  kpk.filter (fun p => decide (p.1 < 1 / 2000))
    ++ fine.filter (fun p => decide (1 / 100 < p.1 ∧ p.1 < 3 / 2))
    ++ kpk.filter (fun p => decide (2 < p.1))

/-- `Wallish2018PowerSpectrumBAOFilter._tophat`: `1` up to `kmax`, a Gaussian
taper beyond it.  The taper `exp(-scale^2 (k/kmax - 1)^2)` is transcendental
and irrelevant to the verified claim, so it is abstracted as `tail`. -/
def tophatKernel (tail : ℚ → ℚ) (kmax k : ℚ) : ℚ :=
  if kmax < k then tail k else 1

/-- The stitching stage of `Wallish2018PowerSpectrumBAOFilter._compute`: with
`S` the clamped cubic spline through `wallishKnots` (abstracted by its
interpolation property) evaluated on the main grid, form
`wiggles = (pk / S(k) - 1) * tophat(k) + 1` and return `pk / wiggles`,
pointwise over the main-grid samples `kpk`. -/
def wallishStitch (S tail : ℚ → ℚ) (kpk : List (ℚ × ℚ)) : List ℚ :=
  (List.range kpk.length).map fun i =>
    let p := kpk.getD i (0, 0)
    p.2 / ((p.2 / S p.1 - 1) * tophatKernel tail 1 p.1 + 1)

/-- `Brieden2022PowerSpectrumBAOFilter._compute`, final stage: start from a
copy of the raw array and overwrite exactly the entries with
`1e-3 ≤ k ≤ 1` (`kmask_fid` from `_prepare`) by the peak-average smooth value
(the whole preceding pipeline abstracted as `smooth`). -/
def briedenCompute (smooth : ℚ → ℚ) (k pk : List ℚ) : List ℚ :=
  (List.range pk.length).map fun i =>
    let ki := k.getD i 0
    if 1 / 1000 ≤ ki ∧ ki ≤ 1 then smooth ki else pk.getD i 0

/-- The Savitzky-Golay window length: `int(ceil(...) // 2 * 2 + 1)` applied to
`m = ceil(log(7) / log(k[-1]/k[-2]))` (the ceiling itself is transcendental
and kept as the parameter `m`). -/
def nfilterOf (m : ℕ) : ℕ := m / 2 * 2 + 1

/-- `SavGolPowerSpectrumBAOFilter._compute`: smooth with the Savitzky-Golay
pipeline (abstracted as `F`), then assign `pknow[-hn:] = pk[-hn:]` with
`hn = nfilter // 2` — numpy's `-0` slice selects the whole array, which the
`start` computation reproduces. -/
def savgolCompute (F : List ℚ → List ℚ) (m : ℕ) (pk : List ℚ) : List ℚ :=
  let hn := nfilterOf m / 2
  let start := if hn = 0 then 0 else pk.length - hn
  (List.range pk.length).map fun i =>
    if start ≤ i then pk.getD i 0 else (F pk).getD i 0

/-! ## Helper lemmas -/

theorem getD_map_range (g : ℕ → ℚ) (n i : ℕ) (h : i < n) (d : ℚ) :
    ((List.range n).map g).getD i d = g i := by
  have h' : i < ((List.range n).map g).length := by simpa using h
  rw [List.getD_eq_getElem _ _ h']
  simp

theorem getD_zipWith {α β γ : Type} (f : α → β → γ) (a : List α) (b : List β)
    (i : ℕ) (da : α) (db : β) (dc : γ) (ha : i < a.length) (hb : i < b.length) :
    (List.zipWith f a b).getD i dc = f (a.getD i da) (b.getD i db) := by
  have h' : i < (List.zipWith f a b).length := by
    rw [List.length_zipWith]; omega
  rw [List.getD_eq_getElem _ _ h', List.getD_eq_getElem _ _ ha, List.getD_eq_getElem _ _ hb]
  simp [List.getElem_zipWith]

theorem getD_mem {α : Type} (l : List α) (i : ℕ) (h : i < l.length) (d : α) :
    l.getD i d ∈ l := by
  rw [List.getD_eq_getElem _ _ h]
  exact List.getElem_mem h

theorem sqResiduals_nonneg (pts : List (ℚ × ℚ)) (params : Fin 5 → ℚ) :
    0 ≤ sqResiduals pts params := by
  apply List.sum_nonneg
  intro x hx
  obtain ⟨q, _, rfl⟩ := List.mem_map.1 hx
  positivity

theorem profile_two (a : NDArr) (ls : List ℕ) (h : a.profile = .inr ls) :
    ∃ w, a = .two w ∧ w.map List.length = ls := by
  cases a with
  | one v => simp [NDArr.profile] at h
  | two v => exact ⟨v, rfl, by simpa [NDArr.profile] using h⟩

theorem profile_axis0_congr (a b : NDArr) (h : a.profile = b.profile) :
    a.axis0.profile = b.axis0.profile := by
  cases a <;> cases b <;> simp_all [NDArr.profile, NDArr.axis0]
  case two.two v w =>
    have : (v.map List.length).length = (w.map List.length).length := by rw [h]
    simpa using this

/-! ## Claim theorems -/

/-- C1: for every filter engine (power-spectrum and correlation-function base
classes share this method verbatim), `rs_drag_ratio()` returns exactly `1`
when no current cosmology was supplied at the last (re-)invocation; with a
current cosmology it returns the current `rs_drag` divided by the fiducial
one, the fiducial `rs_drag` being the fixed constant `100.91463132327911`
when no fiducial cosmology was supplied.  Stated for the state after
re-invocation (`__call__`) and after construction, for every strategy. -/
theorem rs_drag_ratio_cases :
    fidRsDrag = 100.91463132327911
    ∧ (∀ (f : Strategy) (st : FilterState) (interp : Interp) (c : Option Cosmology),
        rs_drag_ratio (callFilter f st interp c)
          = match c with
            | none => 1
            | some cc => cc.rs_drag /
                (match st.cosmoFid with
                  | none => fidRsDrag
                  | some cf => cf.rs_drag))
    ∧ (∀ (f : Strategy) (k : List ℚ) (interp : Interp) (c cf : Option Cosmology),
        rs_drag_ratio (initFilter f k interp c cf)
          = match c with
            | none => 1
            | some cc => cc.rs_drag /
                (match cf with
                  | none => fidRsDrag
                  | some cfid => cfid.rs_drag)) := by
  refine ⟨rfl, ?_, ?_⟩
  · intro f st interp c
    cases interp <;> cases c <;> rfl
  · intro f k interp c cf
    cases interp <;> cases c <;> rfl

/-- C3 counterexample: the claim says construction fails whenever
`extrap_kmin ≥ extrap_kmax`; but `set_k` with the degenerate bounds
`extrap_kmin = 2 ≥ 1 = extrap_kmax` succeeds (numpy's `geomspace` accepts a
reversed range and produces a decreasing grid — no error is raised). -/
theorem set_k_degenerate_counterexample :
    set_k 2 1 1024 = .ok ⟨2, 1, 1024⟩ ∧ (1 : ℚ) ≤ 2 := by
  constructor
  · simp [set_k, npGeomspace]
  · norm_num

/-- C3 amended: construction only fails when an extrapolation bound is zero or
the bounds have opposite signs (numpy `geomspace`'s own constraint); for any
positive bounds — in particular a degenerate range `extrap_kmin ≥ extrap_kmax`
— `set_k` raises no error and numerical work proceeds on the (then
non-increasing) grid. -/
theorem set_k_no_degenerate_check (extrap_kmin extrap_kmax : ℚ) (nk : ℕ)
    (hmin : 0 < extrap_kmin) (hmax : 0 < extrap_kmax) :
    set_k extrap_kmin extrap_kmax nk = .ok ⟨extrap_kmin, extrap_kmax, nk⟩ := by
  rw [set_k, npGeomspace, if_neg]
  push_neg
  exact ⟨ne_of_gt hmin, ne_of_gt hmax, by constructor <;> intro <;> assumption⟩

/-- C3 amended, witness at the degenerate range `(2, 1)`. -/
theorem set_k_no_degenerate_check_witness :
    set_k 2 1 1024 = .ok ⟨2, 1, 1024⟩ :=
  set_k_no_degenerate_check 2 1 1024 (by norm_num) (by norm_num)

/-- C4: on an engine name whose lowercase form is not registered, each factory
returns the `ValueError` naming the unresolved (lowercased) engine string and
constructs nothing; on any name whose lowercase form is registered, the lookup
succeeds case-insensitively and the corresponding engine class is selected for
instantiation. -/
theorem factory_lookup :
    (∀ s : String, List.lookup (lower s) pkRegistry = none →
      PowerSpectrumBAOFilter s
        = .error ("Power spectrum BAO filter " ++ lower s ++ " is unknown"))
    ∧ (∀ (s : String) (cls : PkEngineClass),
        List.lookup (lower s) pkRegistry = some cls →
        PowerSpectrumBAOFilter s = .ok cls)
    ∧ (∀ s : String, List.lookup (lower s) xiRegistry = none →
        CorrelationFunctionBAOFilter s
          = .error ("Correlation function BAO filter " ++ lower s ++ " is unknown"))
    ∧ (∀ (s : String) (cls : XiEngineClass),
        List.lookup (lower s) xiRegistry = some cls →
        CorrelationFunctionBAOFilter s = .ok cls) := by
  refine ⟨?_, ?_, ?_, ?_⟩ <;> intro s <;>
    simp only [PowerSpectrumBAOFilter, CorrelationFunctionBAOFilter]
  · intro h; rw [h]
  · intro cls h; rw [h]
  · intro h; rw [h]
  · intro cls h; rw [h]

/-- C4 witness: `'WALLISH2018'` resolves case-insensitively to the
`wallish2018` engine class, and the unregistered name `'FooBar'` yields the
error message naming `foobar`; same for the correlation-function factory. -/
theorem factory_lookup_witness :
    PowerSpectrumBAOFilter "WALLISH2018" = .ok .wallish2018
    ∧ PowerSpectrumBAOFilter "FooBar"
        = .error "Power spectrum BAO filter foobar is unknown"
    ∧ CorrelationFunctionBAOFilter "Kirkby2013" = .ok .kirkby2013
    ∧ CorrelationFunctionBAOFilter "FooBar"
        = .error "Correlation function BAO filter foobar is unknown" := by
  refine ⟨factory_lookup.2.1 _ _ (by decide), ?_, factory_lookup.2.2.2 _ _ (by decide), ?_⟩
  · have h := factory_lookup.1 "FooBar" (by decide)
    rw [h]; rfl
  · have h := factory_lookup.2.2.1 "FooBar" (by decide)
    rw [h]; rfl

/-- C2: for the Kirkby2013 correlation filter with the default windows
`srange_left = (50, 82)`, `srange_right = (150, 190)` and sound-horizon ratio
`1`, the computed `xinow` equals the raw sampled `xi` exactly at every grid
separation with `s ≤ 82` or `s ≥ 150` (in particular at `s < 50` and
`s > 190`), and on the gap `82 < s < 150` it equals the degree-4 polynomial in
basis `s^(1-i)` fitted by unweighted, unconstrained least squares to the raw
`xi` over the union of the two windows. -/
theorem kirkby2013_gap_fill (solver : List (ℚ × ℚ) → (Fin 5 → ℚ))
    (s xi : List ℚ)
    (hLS : IsLeastSquaresFit (kirkbyFitPoints (50, 82) (150, 190) 1 s xi)
      (solver (kirkbyFitPoints (50, 82) (150, 190) 1 s xi)))
    (i : ℕ) (hi : i < s.length) :
    ((s.getD i 0 ≤ 82 ∨ 150 ≤ s.getD i 0) →
      (kirkbyCompute solver (50, 82) (150, 190) 1 s xi).getD i 0 = xi.getD i 0)
    ∧ (82 < s.getD i 0 → s.getD i 0 < 150 →
      (kirkbyCompute solver (50, 82) (150, 190) 1 s xi).getD i 0
        = polyEval (solver (kirkbyFitPoints (50, 82) (150, 190) 1 s xi))
            (s.getD i 0)) := by
  rw [kirkbyCompute]
  rw [getD_map_range _ _ _ hi]
  constructor
  · intro hcase
    rw [if_neg]
    simp only [mul_one]
    rcases hcase with h | h
    · intro hc; exact absurd hc.1 (by linarith)
    · intro hc; exact absurd hc.2 (by linarith)
  · intro h1 h2
    rw [if_pos]
    simp only [mul_one]
    exact ⟨h1, h2⟩

/-- C2 witness: on the grid `[30, 60, 110, 160, 250]` with `xi ≡ 1` and the
(exactly fitting, hence least-squares optimal) coefficient vector
`(0, 1, 0, 0, 0)`, the filter leaves the boundary probes `s = 30` and
`s = 250` untouched and fills `s = 110` with the fitted polynomial's value. -/
theorem kirkby2013_gap_fill_witness :
    (kirkbyCompute (fun _ j => if j = 1 then (1 : ℚ) else 0) (50, 82) (150, 190) 1
        [30, 60, 110, 160, 250] [1, 1, 1, 1, 1]).getD 0 0 = 1
    ∧ (kirkbyCompute (fun _ j => if j = 1 then (1 : ℚ) else 0) (50, 82) (150, 190) 1
        [30, 60, 110, 160, 250] [1, 1, 1, 1, 1]).getD 4 0 = 1
    ∧ (kirkbyCompute (fun _ j => if j = 1 then (1 : ℚ) else 0) (50, 82) (150, 190) 1
        [30, 60, 110, 160, 250] [1, 1, 1, 1, 1]).getD 2 0
        = polyEval (fun j => if j = 1 then (1 : ℚ) else 0) 110 := by
  have hfit : kirkbyFitPoints (50, 82) (150, 190) 1
      ([30, 60, 110, 160, 250] : List ℚ) ([1, 1, 1, 1, 1] : List ℚ)
      = [(60, 1), (160, 1)] := by
    norm_num [kirkbyFitPoints, List.zip_cons_cons, List.zip_nil_right,
      List.filter_cons, List.filter_nil]
  have hLS : IsLeastSquaresFit
      (kirkbyFitPoints (50, 82) (150, 190) 1 [30, 60, 110, 160, 250] [1, 1, 1, 1, 1])
      (fun (j : Fin 5) => if j = 1 then (1 : ℚ) else 0) := by
    rw [hfit]
    intro q
    have h0 : sqResiduals [((60 : ℚ), (1 : ℚ)), (160, 1)]
        (fun j => if j = 1 then (1 : ℚ) else 0) = 0 := by
      norm_num [sqResiduals, polyEval, polyBasis, Fin.sum_univ_five]
    rw [h0]
    exact sqResiduals_nonneg _ _
  refine ⟨?_, ?_, ?_⟩
  · have h := (kirkby2013_gap_fill (fun _ j => if j = 1 then (1 : ℚ) else 0)
      [30, 60, 110, 160, 250] [1, 1, 1, 1, 1] hLS 0 (by simp)).1
      (by left; norm_num [List.getD_cons_zero])
    rw [h]; rfl
  · have h := (kirkby2013_gap_fill (fun _ j => if j = 1 then (1 : ℚ) else 0)
      [30, 60, 110, 160, 250] [1, 1, 1, 1, 1] hLS 4 (by simp)).1
      (by right; norm_num [List.getD_cons_zero, List.getD_cons_succ])
    rw [h]; rfl
  · have h := (kirkby2013_gap_fill (fun _ j => if j = 1 then (1 : ℚ) else 0)
      [30, 60, 110, 160, 250] [1, 1, 1, 1, 1] hLS 2 (by simp)).2
      (by norm_num [List.getD_cons_zero, List.getD_cons_succ])
      (by norm_num [List.getD_cons_zero, List.getD_cons_succ])
    exact h

/-- C5: for the Wallish2018 filter, at every main-grid wavenumber with
`k < 5e-4` or `k > 2` the stitched `pknow` equals the raw `pk` exactly — such
a point is itself a knot of the stitching spline carrying the raw value, so
the wiggle ratio there is `1` and the tophat blending leaves it unchanged.
`S` is the clamped cubic spline through `wallishKnots`, abstracted by its
interpolation property. -/
theorem wallish2018_edge_passthrough (S tail : ℚ → ℚ) (fine kpk : List (ℚ × ℚ))
    (hS : ∀ p ∈ wallishKnots fine kpk, S p.1 = p.2)
    (i : ℕ) (hi : i < kpk.length)
    (hrange : (kpk.getD i (0, 0)).1 < 1 / 2000 ∨ 2 < (kpk.getD i (0, 0)).1)
    (hnz : (kpk.getD i (0, 0)).2 ≠ 0) :
    (wallishStitch S tail kpk).getD i 0 = (kpk.getD i (0, 0)).2 := by
  have hmem : kpk.getD i (0, 0) ∈ kpk := getD_mem _ _ hi _
  have hknot : kpk.getD i (0, 0) ∈ wallishKnots fine kpk := by
    rw [wallishKnots]
    rcases hrange with h | h
    · refine List.mem_append_left _ (List.mem_append_left _ ?_)
      rw [List.mem_filter]
      exact ⟨hmem, by simpa using h⟩
    · refine List.mem_append_right _ ?_
      rw [List.mem_filter]
      exact ⟨hmem, by simpa using h⟩
  have hSval := hS _ hknot
  rw [wallishStitch]
  rw [getD_map_range _ _ _ hi]
  show (kpk.getD i (0, 0)).2 /
      (((kpk.getD i (0, 0)).2 / S (kpk.getD i (0, 0)).1 - 1)
        * tophatKernel tail 1 (kpk.getD i (0, 0)).1 + 1)
    = (kpk.getD i (0, 0)).2
  rw [hSval, div_self hnz]
  simp

/-- C5 witness: a three-point main grid with `k = 1/10000 < 5e-4` and
`k = 3 > 2` at the edges, one fine-grid knot, and the spline `x + 1` (which
interpolates every knot of this data): the stitched output reproduces the raw
values at both edge points. -/
theorem wallish2018_edge_passthrough_witness :
    (wallishStitch (fun x => x + 1) (fun _ => 1)
        [(1 / 10000, 10001 / 10000), (1 / 2, 5), (3, 4)]).getD 0 0 = 10001 / 10000
    ∧ (wallishStitch (fun x => x + 1) (fun _ => 1)
        [(1 / 10000, 10001 / 10000), (1 / 2, 5), (3, 4)]).getD 2 0 = 4 := by
  have hknots : wallishKnots [((1 : ℚ) / 10, 11 / 10)]
      [(1 / 10000, 10001 / 10000), (1 / 2, 5), (3, 4)]
      = [(1 / 10000, 10001 / 10000), (1 / 10, 11 / 10), (3, 4)] := by
    norm_num [wallishKnots, List.filter_cons, List.filter_nil]
  have hS : ∀ p ∈ wallishKnots [((1 : ℚ) / 10, 11 / 10)]
      [(1 / 10000, 10001 / 10000), (1 / 2, 5), (3, 4)],
      (fun x => x + 1) p.1 = p.2 := by
    rw [hknots]
    intro p hp
    simp only [List.mem_cons, List.not_mem_nil, or_false] at hp
    rcases hp with rfl | rfl | rfl <;> norm_num
  constructor
  · have h := wallish2018_edge_passthrough (fun x => x + 1) (fun _ => 1)
      [((1 : ℚ) / 10, 11 / 10)] [(1 / 10000, 10001 / 10000), (1 / 2, 5), (3, 4)]
      hS 0 (by simp) (by left; norm_num [List.getD_cons_zero]) (by norm_num [List.getD_cons_zero])
    rw [h]; rfl
  · have h := wallish2018_edge_passthrough (fun x => x + 1) (fun _ => 1)
      [((1 : ℚ) / 10, 11 / 10)] [(1 / 10000, 10001 / 10000), (1 / 2, 5), (3, 4)]
      hS 2 (by simp) (by right; norm_num [List.getD_cons_zero, List.getD_cons_succ])
      (by norm_num [List.getD_cons_zero, List.getD_cons_succ])
    rw [h]; rfl

/-- C6: for the Brieden2022 filter, every main-grid wavenumber outside the
fiducial window `[1e-3, 1]` keeps the raw sampled value exactly, and exactly
the grid points inside the window are replaced by the peak-average smooth
value. -/
theorem brieden2022_window (smooth : ℚ → ℚ) (k pk : List ℚ) (i : ℕ)
    (hi : i < pk.length) :
    ((k.getD i 0 < 1 / 1000 ∨ 1 < k.getD i 0) →
      (briedenCompute smooth k pk).getD i 0 = pk.getD i 0)
    ∧ ((1 / 1000 ≤ k.getD i 0 ∧ k.getD i 0 ≤ 1) →
      (briedenCompute smooth k pk).getD i 0 = smooth (k.getD i 0)) := by
  rw [briedenCompute]
  rw [getD_map_range _ _ _ hi]
  constructor
  · intro hcase
    rw [if_neg]
    rcases hcase with h | h
    · intro hc; exact absurd hc.1 (by linarith)
    · intro hc; exact absurd hc.2 (by linarith)
  · intro hcase
    rw [if_pos hcase]

/-- C6 witness: on the grid `[1/2000, 1/2, 5]` with raw values `[3, 4, 6]`
and smooth value constantly `9`, the points outside `[1e-3, 1]` pass through
raw and the inside point is replaced. -/
theorem brieden2022_window_witness :
    (briedenCompute (fun _ => 9) [1 / 2000, 1 / 2, 5] [3, 4, 6]).getD 0 0 = 3
    ∧ (briedenCompute (fun _ => 9) [1 / 2000, 1 / 2, 5] [3, 4, 6]).getD 2 0 = 6
    ∧ (briedenCompute (fun _ => 9) [1 / 2000, 1 / 2, 5] [3, 4, 6]).getD 1 0 = 9 := by
  refine ⟨?_, ?_, ?_⟩
  · have h := (brieden2022_window (fun _ => 9) [1 / 2000, 1 / 2, 5] [3, 4, 6] 0
      (by norm_num)).1 (by norm_num)
    rw [h]; rfl
  · have h := (brieden2022_window (fun _ => 9) [1 / 2000, 1 / 2, 5] [3, 4, 6] 2
      (by norm_num)).1 (by norm_num)
    rw [h]; rfl
  · have h := (brieden2022_window (fun _ => 9) [1 / 2000, 1 / 2, 5] [3, 4, 6] 1
      (by norm_num)).2 (by norm_num)
    rw [h]

/-- C7: the Savitzky-Golay window length `nfilterOf m`, with
`m = ceil(ln 7 / ln(k[-1]/k[-2]))`, is odd and is a nearest odd integer to
`m`; and every grid index in the last `nfilter // 2` positions of the output
keeps the raw sampled value exactly. -/
theorem savgol_window_and_edge :
    (∀ m : ℕ, Odd (nfilterOf m)
      ∧ ∀ j : ℕ, Odd j → Nat.dist (nfilterOf m) m ≤ Nat.dist j m)
    ∧ (∀ (F : List ℚ → List ℚ) (m : ℕ) (pk : List ℚ) (i : ℕ), i < pk.length →
        pk.length - nfilterOf m / 2 ≤ i →
        (savgolCompute F m pk).getD i 0 = pk.getD i 0) := by
  constructor
  · intro m
    refine ⟨⟨m / 2, by unfold nfilterOf; omega⟩, ?_⟩
    intro j hj
    obtain ⟨t, ht⟩ := hj
    simp only [Nat.dist, nfilterOf]
    omega
  · intro F m pk i hi hedge
    rw [savgolCompute]
    rw [getD_map_range _ _ _ hi]
    rw [if_pos]
    split
    · omega
    · omega

/-- C7 witness: for `m = 4` the window is the odd integer `5`, no closer to
`4` than the odd probe `3`; and with the identity in place of the smoothing
kernel on `[1, 2, 3, 4]`, index `2` (inside the last `5 // 2 = 2` positions)
keeps its raw value. -/
theorem savgol_window_and_edge_witness :
    Odd (nfilterOf 4)
    ∧ Nat.dist (nfilterOf 4) 4 ≤ Nat.dist 3 4
    ∧ (savgolCompute id 4 [1, 2, 3, 4]).getD 2 0 = 3 := by
  refine ⟨(savgol_window_and_edge.1 4).1,
    (savgol_window_and_edge.1 4).2 3 ⟨1, by norm_num⟩, ?_⟩
  have h := savgol_window_and_edge.2 id 4 [1, 2, 3, 4] 2 (by norm_num)
    (by norm_num [nfilterOf])
  rw [h]; rfl

/-- C8: shape and grid invariants.  Every modelled strategy `_compute`
produces an output with exactly the length of the raw sampled array; the
sampling grid is left unchanged by construction and by re-invocation; and at
the state level, for every strategy preserving array layout, the smooth array
has the same layout (`profile`) as the raw array after construction and after
each `__call__`, for 1D and 2D inputs alike. -/
theorem filter_shape_invariants :
    (∀ (solver : List (ℚ × ℚ) → (Fin 5 → ℚ)) (sL sR : ℚ × ℚ) (r : ℚ) (s xi : List ℚ),
        s.length = xi.length → (kirkbyCompute solver sL sR r s xi).length = xi.length)
    ∧ (∀ (F : List ℚ → List ℚ) (m : ℕ) (pk : List ℚ),
        (savgolCompute F m pk).length = pk.length)
    ∧ (∀ (smooth : ℚ → ℚ) (k pk : List ℚ),
        (briedenCompute smooth k pk).length = pk.length)
    ∧ (∀ (S tail : ℚ → ℚ) (kpk : List (ℚ × ℚ)),
        (wallishStitch S tail kpk).length = kpk.length)
    ∧ (∀ (f : Strategy) (st : FilterState) (interp : Interp) (c : Option Cosmology),
        (callFilter f st interp c).k = st.k)
    ∧ (∀ (f : Strategy) (k : List ℚ) (interp : Interp) (c cf : Option Cosmology),
        (initFilter f k interp c cf).k = k)
    ∧ (∀ (f : Strategy), (∀ ks a, (f ks a).profile = a.profile) →
        (∀ (k : List ℚ) (interp : Interp) (c cf : Option Cosmology),
          (initFilter f k interp c cf).pknow.profile
            = (initFilter f k interp c cf).pk.profile)
        ∧ (∀ (st : FilterState) (interp : Interp) (c : Option Cosmology),
          (callFilter f st interp c).pknow.profile
            = (callFilter f st interp c).pk.profile)) := by
  refine ⟨?_, ?_, ?_, ?_, ?_, ?_, ?_⟩
  · intro solver sL sR r s xi hlen
    simpa [kirkbyCompute] using hlen
  · intro F m pk
    simp [savgolCompute]
  · intro smooth k pk
    simp [briedenCompute]
  · intro S tail kpk
    simp [wallishStitch]
  · intro f st interp c
    cases interp <;> rfl
  · intro f k interp c cf
    cases interp <;> rfl
  · intro f hf
    constructor
    · intro k interp c cf
      cases interp <;> exact hf _ _
    · intro st interp c
      cases interp with
      | one g => exact profile_axis0_congr _ _ (hf _ _)
      | two g => exact hf _ _

/-- C8 witness: instantiation with the identity strategy, a two-point grid
and concrete data. -/
theorem filter_shape_invariants_witness :
    (kirkbyCompute (fun _ _ => 0) (50, 82) (150, 190) 1 [1, 2] [3, 4]).length = 2
    ∧ (savgolCompute id 4 [1, 2, 3]).length = 3
    ∧ (briedenCompute (fun _ => 0) [1, 2] [3, 4]).length = 2
    ∧ (wallishStitch (fun _ => 0) (fun _ => 0) [(1, 2)]).length = 1
    ∧ (callFilter (fun _ a => a) ⟨[5], .one [], .one [], false, none, none⟩
        (.one fun x => x) none).k = [5]
    ∧ (initFilter (fun _ a => a) [5] (.one fun x => x) none none).k = [5]
    ∧ (callFilter (fun _ a => a) ⟨[5], .one [], .one [], false, none, none⟩
        (.one fun x => x) none).pknow.profile
      = (callFilter (fun _ a => a) ⟨[5], .one [], .one [], false, none, none⟩
        (.one fun x => x) none).pk.profile := by
  refine ⟨?_, filter_shape_invariants.2.1 id 4 [1, 2, 3],
    filter_shape_invariants.2.2.1 (fun _ => 0) [1, 2] [3, 4],
    filter_shape_invariants.2.2.2.1 (fun _ => 0) (fun _ => 0) [(1, 2)],
    filter_shape_invariants.2.2.2.2.1 (fun _ a => a) _ (.one fun x => x) none,
    filter_shape_invariants.2.2.2.2.2.1 (fun _ a => a) [5] (.one fun x => x) none none,
    ((filter_shape_invariants.2.2.2.2.2.2 (fun _ a => a) (fun _ _ => rfl)).2 _
      (.one fun x => x) none)⟩
  have h := filter_shape_invariants.1 (fun _ _ => 0) (50, 82) (150, 190) 1 [1, 2] [3, 4]
    (by simp)
  simpa using h

/-- C9: the `wiggles` property is the elementwise quotient of the raw array by
the smooth array at every grid point, in both the 1D and the 2D layout.  In
the source it is a bare read (`return self.pk / self.pknow`), modelled here as
a pure function of the state: reading it cannot modify the engine. -/
theorem wiggles_elementwise :
    (∀ (st : FilterState) (a b : List ℚ) (i : ℕ), st.pk = .one a → st.pknow = .one b →
      i < a.length → i < b.length →
      (wiggles st).entry i 0 = st.pk.entry i 0 / st.pknow.entry i 0)
    ∧ (∀ (st : FilterState) (a b : List (List ℚ)) (i j : ℕ), st.pk = .two a →
      st.pknow = .two b → i < a.length → i < b.length →
      j < (a.getD i []).length → j < (b.getD i []).length →
      (wiggles st).entry i j = st.pk.entry i j / st.pknow.entry i j) := by
  constructor
  · intro st a b i hpk hpnow ha hb
    rw [wiggles, hpk, hpnow]
    simp only [ndDiv, NDArr.entry]
    exact getD_zipWith (· / ·) a b i 0 0 0 ha hb
  · intro st a b i j hpk hpnow ha hb hja hjb
    rw [wiggles, hpk, hpnow]
    simp only [ndDiv, NDArr.entry]
    rw [getD_zipWith (fun r s => List.zipWith (· / ·) r s) a b i [] [] [] ha hb]
    exact getD_zipWith (· / ·) _ _ j 0 0 0 hja hjb

/-- C9 witness: concrete 1D and 2D states. -/
theorem wiggles_elementwise_witness :
    (wiggles ⟨[], .one [2], .one [4], false, none, none⟩).entry 0 0 = 1 / 2
    ∧ (wiggles ⟨[], .two [[6]], .two [[3]], true, none, none⟩).entry 0 0 = 2 := by
  constructor
  · have h := wiggles_elementwise.1 ⟨[], .one [2], .one [4], false, none, none⟩
      [2] [4] 0 rfl rfl (by simp) (by simp)
    rw [h]
    norm_num [NDArr.entry]
  · have h := wiggles_elementwise.2 ⟨[], .two [[6]], .two [[3]], true, none, none⟩
      [[6]] [[3]] 0 0 rfl rfl (by simp) (by simp)
      (by simp [List.getD_cons_zero]) (by simp [List.getD_cons_zero])
    rw [h]
    norm_num [NDArr.entry, List.getD_cons_zero]

/-- C10: with a 1D interpolator, construction stores `pk` and `pknow` as 2D
column arrays of layout `(n, 1)` (`[:, None]` without the final flattening),
whereas a re-invocation through `__call__` flattens both to 1D arrays of
length `n` via `[..., 0]` — so the dimensionality of the public arrays
differs between construction and re-invocation. -/
theorem construct_column_then_flatten (f : Strategy)
    (hf : ∀ ks a, (f ks a).profile = a.profile)
    (k : List ℚ) (g : ℚ → ℚ) (c cf : Option Cosmology) :
    (initFilter f k (.one g) c cf).pk.profile = .inr (k.map fun _ => 1)
    ∧ (initFilter f k (.one g) c cf).pknow.profile = .inr (k.map fun _ => 1)
    ∧ (callFilter f (initFilter f k (.one g) c cf) (.one g) c).pk.profile
        = .inl k.length
    ∧ (callFilter f (initFilter f k (.one g) c cf) (.one g) c).pknow.profile
        = .inl k.length := by
  have hcol : (NDArr.two (k.map fun x => [g x])).profile = .inr (k.map fun _ => 1) := by
    simp [NDArr.profile, List.map_map, Function.comp_def]
  refine ⟨hcol, ?_, ?_, ?_⟩
  · show (f k (.two (k.map fun x => [g x]))).profile = _
    rw [hf]
    exact hcol
  · show ((NDArr.two (k.map fun x => [g x])).axis0).profile = _
    simp [NDArr.axis0, NDArr.profile]
  · show ((f k (.two (k.map fun x => [g x]))).axis0).profile = _
    rw [profile_axis0_congr _ (.two (k.map fun x => [g x])) (hf _ _)]
    simp [NDArr.axis0, NDArr.profile]

/-- C10 witness: identity strategy on the two-point grid `[1, 2]`. -/
theorem construct_column_then_flatten_witness :
    (initFilter (fun _ a => a) [1, 2] (.one fun x => x) none none).pk.profile
      = .inr [1, 1]
    ∧ (initFilter (fun _ a => a) [1, 2] (.one fun x => x) none none).pknow.profile
      = .inr [1, 1]
    ∧ (callFilter (fun _ a => a)
        (initFilter (fun _ a => a) [1, 2] (.one fun x => x) none none)
        (.one fun x => x) none).pk.profile = .inl 2
    ∧ (callFilter (fun _ a => a)
        (initFilter (fun _ a => a) [1, 2] (.one fun x => x) none none)
        (.one fun x => x) none).pknow.profile = .inl 2 := by
  have h := construct_column_then_flatten (fun _ a => a) (fun _ _ => rfl)
    [1, 2] (fun x => x) none none
  exact ⟨by simpa using h.1, by simpa using h.2.1, by simpa using h.2.2.1,
    by simpa using h.2.2.2⟩
